import Mathlib

/-! Word-frequency regression driver (`main.cpp`)

A shallow embedding of the regression-test driver of the word-frequency
homework and of the `WordFrequency` table it exercises.

* The driver (`ChangeEpsilon_RAII`, `MyCustomHasher`, the four test sets of
  `main`) is translated from `main.cpp`.
* The `WordFrequency` class template and `Regression::CheckResults` are not
  among the sources; they are modelled from the specification, and every such
  definition says so in its doc comment.
-/

namespace WordFreq

/-! ## The word-frequency table -/

/-- Modelled from the spec: the tokenizer of the missing `WordFrequency`
class.  A character belongs to a word when it is alphabetic or an apostrophe;
every other character (punctuation, digits, whitespace) is a delimiter. -/
def isWordChar (c : Char) : Bool :=
  c.isAlpha || c == Char.ofNat 39

/-- Modelled from the spec: the tokenizer of the missing `WordFrequency`
class.  Removes the apostrophes at the front of a run, so that only
apostrophes inside a word are kept. -/
def dropApostrophes : List Char → List Char
  | [] => []
  | c :: cs => if c = Char.ofNat 39 then dropApostrophes cs else c :: cs

/-- Modelled from the spec: the tokenizer of the missing `WordFrequency`
class.  Strips the apostrophes at both ends of a run of word characters. -/
def trimApostrophes (run : List Char) : List Char :=
  (dropApostrophes (dropApostrophes run).reverse).reverse

/-- Modelled from the spec: the tokenizer of the missing `WordFrequency`
class.  Closes the run collected so far (held in reverse) and appends it to
the tokens when something is left of it after trimming. -/
def flushRun (run : List Char) (acc : List String) : List String :=
  match trimApostrophes run.reverse with
  | [] => acc
  | c :: cs => acc ++ [String.mk (c :: cs)]

/-- Modelled from the spec: the tokenizer of the missing `WordFrequency`
class.  Scans the characters left to right, collecting maximal runs of word
characters; case is preserved. -/
def scanTokens : List Char → List Char → List String → List String
  | [], run, acc => flushRun run acc
  | c :: cs, run, acc =>
    if isWordChar c then scanTokens cs (c :: run) acc
    else scanTokens cs [] (flushRun run acc)

/-- Modelled from the spec: the tokenizer of the missing `WordFrequency`
class: "a maximal run of alphabetic/apostrophe-internal characters,
case-sensitive; punctuation and whitespace are delimiters and are
discarded". -/
def tokenize (text : String) : List String :=
  scanTokens text.data [] []

/-- Modelled from the spec: one entry of the missing `WordFrequency` table, a
token with its occurrence count (at least 1 for a present key).  `firstSeen`
is the position in the token stream at which the token was first encountered;
the spec breaks ties of `mostFrequentWord` by "first encountered". -/
structure Entry where
  token : String
  count : Nat
  firstSeen : Nat
deriving DecidableEq, Repr

/-- Modelled from the spec: a bucket of the missing `WordFrequency` table, the
collision chain of the tokens that hash to the same slot. -/
abbrev Bucket := List Entry

/-- Modelled from the spec: the missing `WordFrequency<Hasher>` class
template, a hash table from tokens to occurrence counts, generic over the
hash function.  The only state is the bucket array. -/
structure WordFrequency (hasher : String → Nat) where
  buckets : List Bucket

/-- Modelled from the spec: lookup of a key in one collision chain of the
missing `WordFrequency` table. -/
def Bucket.lookup : Bucket → String → Option Entry
  | [], _ => none
  | e :: rest, key => if e.token = key then some e else Bucket.lookup rest key

/-- Modelled from the spec: counting one more occurrence of `key` in a
collision chain of the missing `WordFrequency` table: the entry of `key` has
its count incremented; when there is none a new entry with count 1 is chained
at the end (key uniqueness is mandatory). -/
def Bucket.bump : Bucket → String → Nat → Bucket
  | [], key, pos => [⟨key, 1, pos⟩]
  | e :: rest, key, pos =>
    if e.token = key then { e with count := e.count + 1 } :: rest
    else e :: Bucket.bump rest key pos

/-- Modelled from the spec: applies `f` to the bucket in slot `i` of the
bucket array of the missing `WordFrequency` table. -/
def modifyBucket (f : Bucket → Bucket) : List Bucket → Nat → List Bucket
  | [], _ => []
  | b :: bs, 0 => f b :: bs
  | b :: bs, i + 1 => b :: modifyBucket f bs i

/-- Modelled from the spec: the bucket in slot `i` of the bucket array of the
missing `WordFrequency` table (empty when there is no such slot). -/
def bucketAt : List Bucket → Nat → Bucket
  | [], _ => []
  | b :: _, 0 => b
  | _ :: bs, i + 1 => bucketAt bs i

namespace WordFrequency

variable {hasher : String → Nat}

/-- Modelled from the spec: the number of slots of the bucket array of the
missing `WordFrequency` table. -/
def bucketCount (t : WordFrequency hasher) : Nat :=
  t.buckets.length

/-- Modelled from the spec: the slot of a key in the missing `WordFrequency`
table, the value of the hash function reduced to a bucket index. -/
def bucketIndex (t : WordFrequency hasher) (key : String) : Nat :=
  hasher key % t.bucketCount

/-- Modelled from the spec: the empty table of the missing `WordFrequency`
class, with `bucketCount` empty slots (the bucket-count policy is left to the
implementation). -/
def empty (hasher : String → Nat) (bucketCount : Nat) : WordFrequency hasher :=
  ⟨List.replicate bucketCount []⟩

/-- Modelled from the spec: insertion into the missing `WordFrequency` table
of the token read at position `pos` of the stream. -/
def insert (t : WordFrequency hasher) (token : String) (pos : Nat) : WordFrequency hasher :=
  ⟨modifyBucket (fun b => b.bump token pos) t.buckets (t.bucketIndex token)⟩

/-- Modelled from the spec: streaming the tokens into the missing
`WordFrequency` table, the first of them read at position `pos`. -/
def insertAll (t : WordFrequency hasher) : List String → Nat → WordFrequency hasher
  | [], _ => t
  | token :: rest, pos => insertAll (t.insert token pos) rest (pos + 1)

/-- Modelled from the spec: the constructor of the missing `WordFrequency`
class from an input character stream.  The stream is `none` when it is not
open or not readable, and then the table is empty; otherwise it holds the
text, whose tokens are counted. -/
def ofStream (hasher : String → Nat) (bucketCount : Nat) : Option String → WordFrequency hasher
  | none => empty hasher bucketCount
  | some text => (empty hasher bucketCount).insertAll (tokenize text) 0

/-- Modelled from the spec: the zero-argument constructor of the missing
`WordFrequency` class, which "loads from a fixed built-in text resource";
`builtin` is that text. -/
def ofDefault (hasher : String → Nat) (bucketCount : Nat) (builtin : String) :
    WordFrequency hasher :=
  ofStream hasher bucketCount (some builtin)

/-- Modelled from the spec: all entries of the missing `WordFrequency` table,
in the order of a walk over the bucket array. -/
def entries (t : WordFrequency hasher) : List Entry :=
  t.buckets.foldr (fun b acc => b ++ acc) []

/-- Modelled from the spec: the distinct tokens held by the missing
`WordFrequency` table. -/
def keys (t : WordFrequency hasher) : List String :=
  t.entries.map Entry.token

/-- Modelled from the spec: lookup of a key in the missing `WordFrequency`
table: the key is searched in the collision chain of its slot. -/
def find (t : WordFrequency hasher) (key : String) : Option Entry :=
  (bucketAt t.buckets (t.bucketIndex key)).lookup key

/-- Modelled from the spec: `wordCount(word)` of the missing `WordFrequency`
class: the occurrence count of the key, 0 when the key is absent. -/
def wordCount (t : WordFrequency hasher) (word : String) : Nat :=
  match t.find word with
  | some e => e.count
  | none => 0

/-- Modelled from the spec: `numberOfWords()` of the missing `WordFrequency`
class: the total of all counts, found by walking the bucket array. -/
def numberOfWords (t : WordFrequency hasher) : Nat :=
  (t.entries.map Entry.count).sum

end WordFrequency

/-- Modelled from the spec: the order behind `mostFrequentWord` of the missing
`WordFrequency` class: a larger count wins, and of two entries with the same
count the one first encountered wins. -/
def Entry.better (a b : Entry) : Bool :=
  decide (b.count < a.count) || (decide (a.count = b.count) && decide (a.firstSeen < b.firstSeen))

/-- Modelled from the spec: one step of the walk of `mostFrequentWord` of the
missing `WordFrequency` class, which keeps the best entry met so far. -/
def pickBest : Option Entry → Entry → Option Entry
  | none, e => some e
  | some b, e => if e.better b then some e else some b

namespace WordFrequency

variable {hasher : String → Nat}

/-- Modelled from the spec: the entry `mostFrequentWord` of the missing
`WordFrequency` class settles on, found by walking the bucket array. -/
def bestEntry (t : WordFrequency hasher) : Option Entry :=
  t.entries.foldl pickBest none

/-- Modelled from the spec: `mostFrequentWord()` of the missing
`WordFrequency` class: the key with the maximum count, the empty string when
the table is empty. -/
def mostFrequentWord (t : WordFrequency hasher) : String :=
  match t.bestEntry with
  | some e => e.token
  | none => ""

end WordFrequency

/-- Modelled from the spec: what `mostFrequentWord` of the missing
`WordFrequency` class has to return for the token stream `toks`: a token of
the stream with the maximum count, and the first encountered of those. -/
def FirstMostFrequent (toks : List String) (w : String) : Prop :=
  w ∈ toks ∧ ∀ u ∈ toks, toks.count u ≤ toks.count w ∧
    (toks.count u = toks.count w → toks.indexOf w ≤ toks.indexOf u)

namespace WordFrequency

variable {hasher : String → Nat}

/-- Modelled from the spec: `maxBucketSize()` of the missing `WordFrequency`
class: the length of the longest collision chain, 0 when the table is
empty. -/
def maxBucketSize (t : WordFrequency hasher) : Nat :=
  (t.buckets.map List.length).foldl max 0

/-- Modelled from the spec: `bucketSizeAverage()` of the missing
`WordFrequency` class: the mean number of entries per bucket slot, 0 when the
table is empty.  An exact rational stands for the `double` of the class. -/
def bucketSizeAverage (t : WordFrequency hasher) : Rat :=
  (t.entries.length : Rat) / (t.bucketCount : Rat)

end WordFrequency


/-- Modelled from the spec: the tokens the constructor of the missing
`WordFrequency` class reads from a stream: none when the stream is not open. -/
def streamTokens : Option String → List String
  | none => []
  | some text => tokenize text

/-! ## Hashers whose call may yield no value -/

/-- Modelled from the spec: the `Hasher` parameter of the missing
`WordFrequency<Hasher>` class template as a translation unit can supply it: a
call operator on a string key.  The call yields `none` when it returns no
value. -/
abbrev HashFunction := String → Option Nat

/-- Modelled from the spec: the hash values the missing `WordFrequency<Hasher>`
table works with, those the calls of its hasher yield.  Where a call yields no
value the operations below have no result, and the 0 put here is never
used. -/
def HashFunction.values (hasher : HashFunction) : String → Nat :=
  fun key => (hasher key).getD 0

namespace WordFrequency

/-- Modelled from the spec: insertion into the missing `WordFrequency<Hasher>`
table under a hasher whose call may yield no value: the key is hashed first,
and without a hash value there is no resulting table. -/
def insertWith (hasher : HashFunction) (t : WordFrequency hasher.values) (token : String)
    (pos : Nat) : Option (WordFrequency hasher.values) :=
  match hasher token with
  | some _ => some (t.insert token pos)
  | none => none

/-- Modelled from the spec: streaming the tokens into the missing
`WordFrequency<Hasher>` table under a hasher whose call may yield no value;
the first insertion without a result ends the construction without one. -/
def insertAllWith (hasher : HashFunction) (t : WordFrequency hasher.values) :
    List String → Nat → Option (WordFrequency hasher.values)
  | [], _ => some t
  | token :: rest, pos =>
    match insertWith hasher t token pos with
    | some t2 => insertAllWith hasher t2 rest (pos + 1)
    | none => none

/-- Modelled from the spec: the constructor of the missing
`WordFrequency<Hasher>` class from an input character stream, under a hasher
whose call may yield no value. -/
def ofStreamWith (hasher : HashFunction) (bucketCount : Nat) :
    Option String → Option (WordFrequency hasher.values)
  | none => some (empty hasher.values bucketCount)
  | some text => insertAllWith hasher (empty hasher.values bucketCount) (tokenize text) 0

/-- Modelled from the spec: `wordCount(word)` of the missing
`WordFrequency<Hasher>` class under a hasher whose call may yield no value:
the word is hashed first, and without a hash value there is no count. -/
def wordCountWith (hasher : HashFunction) (t : WordFrequency hasher.values) (word : String) :
    Option Nat :=
  match hasher word with
  | some _ => some (t.wordCount word)
  | none => none

end WordFrequency

/-- The state of a table into which the tokens `done` have been streamed: a
lookup finds exactly the tokens of `done`, each with its number of occurrences
and the position of its first occurrence; every entry sits in the slot of its
key, and no chain holds a key twice. -/
structure WordFrequency.Holds {hasher : String → Nat} (t : WordFrequency hasher)
    (done : List String) : Prop where
  find_eq : ∀ w, t.find w =
    if w ∈ done then some ⟨w, done.count w, done.indexOf w⟩ else none
  placed : ∀ i, ∀ e ∈ bucketAt t.buckets i, t.bucketIndex e.token = i
  nodup : ∀ i, ((bucketAt t.buckets i).map Entry.token).Nodup

/-! ## The driver: `ChangeEpsilon_RAII` and the checker -/

/-- Modelled from the spec: the enumeration
`Regression::CheckResults::ReportingPolicy` of the reporter, which is not
among the sources.  `main` names the enumerator `ALL` only; `OTHER` stands for
the rest. -/
inductive ReportingPolicy where
  | ALL
  | OTHER
deriving DecidableEq, Repr

/-- Modelled from the spec: `Regression::CheckResults`, the external
regression reporter that "consumes boolean/equality assertions and prints a
pass/fail tally".  `main` reads and writes its members `EPSILON` and `policy`;
`tally` is the record of the assertions made so far. -/
structure CheckResults where
  EPSILON : Float
  policy : ReportingPolicy
  tally : List Bool

/-- The struct `ChangeEpsilon_RAII` (lines 13-20).  Its member `_epsilon` is
the saved tolerance; its reference member `_checker` is the checker state
handed to `construct` and `destroy`. -/
structure ChangeEpsilon_RAII where
  _epsilon : Float

/-- The constructor of `ChangeEpsilon_RAII` (line 15): `_epsilon` is
initialised from `checker.EPSILON`, then `checker.EPSILON` is set to
`newEpsilon`. -/
def ChangeEpsilon_RAII.construct (checker : CheckResults) (newEpsilon : Float) :
    ChangeEpsilon_RAII × CheckResults :=
  (⟨checker.EPSILON⟩, { checker with EPSILON := newEpsilon })

/-- The destructor of `ChangeEpsilon_RAII` (line 16): `checker.EPSILON` is set
back to `_epsilon`. -/
def ChangeEpsilon_RAII.destroy (self : ChangeEpsilon_RAII) (checker : CheckResults) :
    CheckResults :=
  { checker with EPSILON := self._epsilon }

/-- The assertions of `main` numbered `first`, ..., `first + count - 1`, made
one after the other.  The methods `is_true`, `is_equal` and `is_greater_than`
belong to the reporter, which is not among the sources: `call i` is what the
assertion number `i` of `main` does to the checker. -/
def assertions (call : Nat → CheckResults → CheckResults) (first : Nat) :
    Nat → CheckResults → CheckResults
  | 0, affirm => affirm
  | count + 1, affirm => assertions call (first + 1) count (call first affirm)

/-- The block "temporarily widen the acceptable range" of test sets 1 and 3
(lines 81-84 and 137-140): `changeEpsilon` is constructed, the assertion number
`i` is made, and the block ends, which destroys `changeEpsilon`. -/
def widenedBlock (call : Nat → CheckResults → CheckResults) (newEpsilon : Float) (i : Nat)
    (affirm : CheckResults) : CheckResults :=
  let p := ChangeEpsilon_RAII.construct affirm newEpsilon
  let changeEpsilon := p.1
  let affirm := call i p.2
  changeEpsilon.destroy affirm

/-- What test set 1 (lines 65-90) does to the checker: `is_true` and seven
`is_equal`, the widened block with 0.075, and the `maxBucketSize` check. -/
def testSet1Checker (call : Nat → CheckResults → CheckResults) (affirm : CheckResults) :
    CheckResults :=
  let affirm := assertions call 0 8 affirm
  let affirm := widenedBlock call 0.075 8 affirm
  call 9 affirm

/-- What test set 2 (lines 100-116) does to the checker: `is_true`, seven
`is_equal` and two `is_greater_than`. -/
def testSet2Checker (call : Nat → CheckResults → CheckResults) (affirm : CheckResults) :
    CheckResults :=
  assertions call 10 10 affirm

/-- What test set 3 (lines 126-146) does to the checker: five `is_equal`, the
widened block with 0.067, and the `maxBucketSize` check. -/
def testSet3Checker (call : Nat → CheckResults → CheckResults) (affirm : CheckResults) :
    CheckResults :=
  let affirm := assertions call 20 5 affirm
  let affirm := widenedBlock call 0.067 25 affirm
  call 26 affirm

/-- The checker of `main` at the moment the `bucketSizeAverage` comparison of
test set 4 (line 167) starts: `affirm` as constructed on line 58, the policy
set on line 59, test sets 1 to 3, and the `is_true` and four `is_equal` of
lines 160-166. -/
def checkerAtTestSet4Average (call : Nat → CheckResults → CheckResults)
    (affirm : CheckResults) : CheckResults :=
  let affirm := { affirm with policy := ReportingPolicy.ALL }
  let affirm := testSet1Checker call affirm
  let affirm := testSet2Checker call affirm
  let affirm := testSet3Checker call affirm
  assertions call 27 5 affirm

/-! ## The driver: `MyCustomHasher` -/

/-- The call operator of `MyCustomHasher` (lines 30-35).  Its body, between
the markers of TO-DO (2), is empty: control reaches the closing brace of a
function declared to return `std::size_t` without meeting a `return`, so the
call yields no value for any key. -/
def MyCustomHasher.call (_key : String) : Option Nat :=
  none

/-! ## The driver: the checks of `main` -/

/-- Modelled from the spec: `is_equal` of the reporter on integers and
strings: the assertion passes when the expected and the actual value are
equal. -/
def is_equal {α : Type} [DecidableEq α] (expected actual : α) : Bool :=
  decide (expected = actual)

/-- Subtraction of `std::size_t` values, 64 bits wide: the difference modulo
`2 ^ 64`. -/
def sizeSub (a b : Nat) : Nat :=
  (a + 2 ^ 64 - b % 2 ^ 64) % 2 ^ 64

/-- The `maxBucketSize` check of test set 1 (line 87):
`is_equal( (size - 5 <= 2 ? size : 6u), size )`. -/
def maxBucketSizeCheck1 (size : Nat) : Bool :=
  is_equal (if sizeSub size 5 ≤ 2 then size else 6) size

/-- The `maxBucketSize` check of test set 3 (line 143):
`is_equal( (size - 4 <= 2 ? size : 5u), size )`. -/
def maxBucketSizeCheck3 (size : Nat) : Bool :=
  is_equal (if sizeSub size 4 ≤ 2 then size else 5) size

/-- The seven exact checks of test set 1 (lines 72-78) on its table. -/
def testSet1Checks {hasher : String → Nat} (frankenstein : WordFrequency hasher) : List Bool :=
  [ is_equal 7195 frankenstein.numberOfWords,
    is_equal 24 (frankenstein.wordCount "Frankenstein"),
    is_equal 13 (frankenstein.wordCount "feared"),
    is_equal 4187 (frankenstein.wordCount "the"),
    is_equal 114 (frankenstein.wordCount "life"),
    is_equal 0 (frankenstein.wordCount "non-existent-!word"),
    is_equal "the" frankenstein.mostFrequentWord ]

/-- The seven exact checks of test set 2 (lines 107-113) on its table, a
`WordFrequency<MyCustomHasher>`.  A check has no outcome (`none`) when the
table, or the value the check is handed, does not exist. -/
def testSet2Checks
    (frankenstein : Option (WordFrequency (HashFunction.values MyCustomHasher.call))) :
    List (Option Bool) :=
  [ frankenstein.map (fun t => is_equal 7195 t.numberOfWords),
    frankenstein.bind (fun t =>
      (t.wordCountWith MyCustomHasher.call "Frankenstein").map (fun c => is_equal 24 c)),
    frankenstein.bind (fun t =>
      (t.wordCountWith MyCustomHasher.call "feared").map (fun c => is_equal 13 c)),
    frankenstein.bind (fun t =>
      (t.wordCountWith MyCustomHasher.call "the").map (fun c => is_equal 4187 c)),
    frankenstein.bind (fun t =>
      (t.wordCountWith MyCustomHasher.call "life").map (fun c => is_equal 114 c)),
    frankenstein.bind (fun t =>
      (t.wordCountWith MyCustomHasher.call "non-existent-!word").map (fun c => is_equal 0 c)),
    frankenstein.map (fun t => is_equal "the" t.mostFrequentWord) ]

/-- The five exact checks of test set 3 (lines 130-134) on its table. -/
def testSet3Checks {hasher : String → Nat} (sleepyHollow : WordFrequency hasher) : List Bool :=
  [ is_equal 3231 sleepyHollow.numberOfWords,
    is_equal 45 (sleepyHollow.wordCount "Ichabod"),
    is_equal 917 (sleepyHollow.wordCount "the"),
    is_equal 0 (sleepyHollow.wordCount "non-existent-!word"),
    is_equal "the" sleepyHollow.mostFrequentWord ]

/-- The outcome of a list of checks: all of them pass. -/
def allPass (checks : List Bool) : Bool :=
  checks.all id

/-- The files `main` can find: the text of a file by its name, `none` for a
file that does not exist. -/
abbrev FileSystem := String → Option String

/-- The constructor `std::ifstream fin( name )`: the stream is open on the
text of the file, or not open (`none`) when the file does not exist. -/
def ifstream (files : FileSystem) (name : String) : Option String :=
  files name

/-- Test set 1 up to its exact checks (lines 68-78): `fin` is opened on the
Frankenstein file, `frankenstein` is constructed from `fin` with the default
hasher, and the outcomes are those of `is_true( fin.is_open() )` and of the
seven `is_equal`. -/
def testSet1 (hasher : String → Nat) (bucketCount : Nat) (files : FileSystem) : List Bool :=
  let fin := ifstream files "Frankenstein or The Modern Prometheus by Mary Shelley.txt"
  let frankenstein : WordFrequency hasher := WordFrequency.ofStream hasher bucketCount fin
  fin.isSome :: testSet1Checks frankenstein

/-- Test set 2 up to its exact checks (lines 103-113): `fin` is opened on the
Frankenstein file and `frankenstein`, a `WordFrequency<MyCustomHasher>`, is
constructed from `fin`; the outcomes are those of `is_true( fin.is_open() )`
and of the seven `is_equal`. -/
def testSet2 (bucketCount : Nat) (files : FileSystem) : List (Option Bool) :=
  let fin := ifstream files "Frankenstein or The Modern Prometheus by Mary Shelley.txt"
  let frankenstein := WordFrequency.ofStreamWith MyCustomHasher.call bucketCount fin
  some fin.isSome :: testSet2Checks frankenstein

/-- Test set 3 up to its exact checks (lines 129-134): the table is declared
as `WordFrequency<> sleepyHollow;`, with no argument, and the outcomes are
those of the five `is_equal`.  `hasher`, `bucketCount` and `builtin` are as in
`testSet4` below. -/
def testSet3 (hasher : String → Nat) (bucketCount : Nat) (builtin : String) : List Bool :=
  let sleepyHollow : WordFrequency hasher := WordFrequency.ofDefault hasher bucketCount builtin
  testSet3Checks sleepyHollow

/-- The six values test set 4 asks of its table (lines 163-168), in the order
of the six checks. -/
structure Queries where
  numberOfWords : Nat
  wordCountThe : Nat
  wordCountNonexistent : Nat
  mostFrequentWord : String
  bucketSizeAverage : Rat
  maxBucketSize : Nat
deriving DecidableEq

/-- The six queries of lines 163-168 made on a table. -/
def queries {hasher : String → Nat} (table : WordFrequency hasher) : Queries where
  numberOfWords := table.numberOfWords
  wordCountThe := table.wordCount "the"
  wordCountNonexistent := table.wordCount "non-existent-!word"
  mostFrequentWord := table.mostFrequentWord
  bucketSizeAverage := table.bucketSizeAverage
  maxBucketSize := table.maxBucketSize

/-- The values the six checks of test set 4 expect (lines 163-168). -/
def testSet4Expected : Queries :=
  ⟨0, 0, 0, "", 0, 0⟩

/-- Test set 4 (lines 156-169).  `fin` is opened on the Hunger Games file and
used by the first assertion only (`! fin.is_open()`); the table is declared
as `WordFrequency<> hungerGames;`, with no argument.  The result is the value
handed to `is_true` and the six values handed to the `is_equal` checks.
`hasher` is the default hasher of `WordFrequency<>`, `bucketCount` its bucket
count and `builtin` the text its zero-argument constructor loads. -/
def testSet4 (hasher : String → Nat) (bucketCount : Nat) (builtin : String)
    (files : FileSystem) : Bool × Queries :=
  let fin := ifstream files "The Hunger Games by Suzanne Collins.txt"
  let hungerGames : WordFrequency hasher := WordFrequency.ofDefault hasher bucketCount builtin
  (!fin.isSome, queries hungerGames)

/-! ## Collision chains -/

theorem Bucket.lookup_bump (b : Bucket) (key : String) (pos : Nat) (w : String) :
    (b.bump key pos).lookup w =
      if w = key then
        some (match b.lookup key with
          | some e => { e with count := e.count + 1 }
          | none => ⟨key, 1, pos⟩)
      else b.lookup w := by
  induction b with
  | nil =>
    by_cases h : w = key
    · subst h; simp [Bucket.bump, Bucket.lookup]
    · have h2 : ¬ key = w := fun h3 => h h3.symm
      simp [Bucket.bump, Bucket.lookup, h, h2]
  | cons e rest ih =>
    by_cases hk : e.token = key
    · by_cases h : w = key
      · subst h; simp [Bucket.bump, Bucket.lookup, hk]
      · have h2 : ¬ e.token = w := fun h3 => h (h3.symm.trans hk)
        have h4 : ¬ key = w := fun h3 => h h3.symm
        simp [Bucket.bump, Bucket.lookup, hk, h, h4]
    · by_cases h : w = key
      · subst h; simp [Bucket.bump, Bucket.lookup, hk, ih]
      · simp only [Bucket.bump, hk, if_false, Bucket.lookup, ih, h]

theorem Bucket.lookup_mem {b : Bucket} {w : String} {e : Entry} (h : b.lookup w = some e) :
    e ∈ b ∧ e.token = w := by
  induction b with
  | nil => simp [Bucket.lookup] at h
  | cons x rest ih =>
    by_cases hx : x.token = w
    · simp [Bucket.lookup, hx] at h
      subst h; exact ⟨List.mem_cons_self _ _, hx⟩
    · simp [Bucket.lookup, hx] at h
      exact ⟨List.mem_cons_of_mem _ (ih h).1, (ih h).2⟩

theorem Bucket.map_token_bump (b : Bucket) (key : String) (pos : Nat) :
    (b.bump key pos).map Entry.token =
      if key ∈ b.map Entry.token then b.map Entry.token else b.map Entry.token ++ [key] := by
  induction b with
  | nil => simp [Bucket.bump]
  | cons e rest ih =>
    by_cases hk : e.token = key
    · simp [Bucket.bump, hk]
    · have hk2 : ¬ key = e.token := fun h => hk h.symm
      simp only [Bucket.bump, hk, if_false, List.map_cons, ih, List.mem_cons, hk2, false_or]
      split <;> simp

theorem Bucket.mem_bump {b : Bucket} {key : String} {pos : Nat} {e : Entry}
    (h : e ∈ b.bump key pos) : e ∈ b ∨ e.token = key := by
  induction b with
  | nil => simp [Bucket.bump] at h; right; rw [h]
  | cons x rest ih =>
    by_cases hk : x.token = key
    · simp only [Bucket.bump, hk, if_true, List.mem_cons] at h
      rcases h with h | h
      · right; rw [h]
      · left; exact List.mem_cons_of_mem _ h
    · simp only [Bucket.bump, hk, if_false, List.mem_cons] at h
      rcases h with h | h
      · left; rw [h]; exact List.mem_cons_self _ _
      · rcases ih h with h2 | h2
        · left; exact List.mem_cons_of_mem _ h2
        · right; exact h2

theorem Bucket.nodup_bump {b : Bucket} (key : String) (pos : Nat)
    (h : (b.map Entry.token).Nodup) : ((b.bump key pos).map Entry.token).Nodup := by
  rw [Bucket.map_token_bump]
  split
  · exact h
  · rename_i hk
    rw [List.nodup_append]
    refine ⟨h, List.nodup_singleton _, ?_⟩
    intro a ha hb
    simp at hb
    subst hb
    exact hk ha

theorem Bucket.lookup_self {b : Bucket} (h : (b.map Entry.token).Nodup) {e : Entry}
    (he : e ∈ b) : b.lookup e.token = some e := by
  induction b with
  | nil => simp at he
  | cons x rest ih =>
    simp only [List.map_cons, List.nodup_cons] at h
    rcases List.mem_cons.1 he with h1 | h1
    · subst h1; simp [Bucket.lookup]
    · have hne : ¬ x.token = e.token := by
        intro h2
        exact h.1 (h2 ▸ List.mem_map_of_mem Entry.token h1)
      simp only [Bucket.lookup, hne, if_false]
      exact ih h.2 h1

theorem Bucket.sum_count_bump (b : Bucket) (key : String) (pos : Nat) :
    ((b.bump key pos).map Entry.count).sum = (b.map Entry.count).sum + 1 := by
  induction b with
  | nil => simp [Bucket.bump]
  | cons e rest ih =>
    by_cases hk : e.token = key
    · simp [Bucket.bump, hk]; omega
    · simp [Bucket.bump, hk, ih]; omega

/-! ## The bucket array -/

theorem length_modifyBucket (f : Bucket → Bucket) (bs : List Bucket) (i : Nat) :
    (modifyBucket f bs i).length = bs.length := by
  induction bs generalizing i with
  | nil => rfl
  | cons b bs ih => cases i <;> simp [modifyBucket, ih]

theorem bucketAt_modifyBucket (f : Bucket → Bucket) (bs : List Bucket) (i j : Nat) :
    bucketAt (modifyBucket f bs i) j =
      if i = j ∧ j < bs.length then f (bucketAt bs j) else bucketAt bs j := by
  induction bs generalizing i j with
  | nil => simp [modifyBucket, bucketAt]
  | cons b bs ih =>
    cases i with
    | zero =>
      cases j with
      | zero => simp [modifyBucket, bucketAt]
      | succ j => simp [modifyBucket, bucketAt]
    | succ i =>
      cases j with
      | zero => simp [modifyBucket, bucketAt]
      | succ j => simp [modifyBucket, bucketAt, ih]

theorem bucketAt_of_length_le {bs : List Bucket} {i : Nat} (h : bs.length ≤ i) :
    bucketAt bs i = [] := by
  induction bs generalizing i with
  | nil => rfl
  | cons b bs ih =>
    cases i with
    | zero => simp at h
    | succ i => simp only [bucketAt]; exact ih (by simpa using h)

theorem bucketAt_replicate (n i : Nat) : bucketAt (List.replicate n []) i = [] := by
  induction n generalizing i with
  | zero => rfl
  | succ n ih => cases i <;> simp [List.replicate, bucketAt, ih]

theorem mem_foldr_append {bs : List Bucket} {e : Entry} :
    e ∈ bs.foldr (fun b acc => b ++ acc) [] ↔ ∃ i, e ∈ bucketAt bs i := by
  induction bs with
  | nil => simp [bucketAt]
  | cons b bs ih =>
    simp only [List.foldr_cons, List.mem_append, ih]
    constructor
    · rintro (h | ⟨i, h⟩)
      · exact ⟨0, h⟩
      · exact ⟨i + 1, h⟩
    · rintro ⟨i, h⟩
      cases i with
      | zero => exact Or.inl h
      | succ i => exact Or.inr ⟨i, h⟩

theorem sum_count_modifyBucket (bs : List Bucket) (key : String) (pos i : Nat)
    (h : i < bs.length) :
    (((modifyBucket (fun b => b.bump key pos) bs i).foldr (fun b acc => b ++ acc) []).map
        Entry.count).sum =
      ((bs.foldr (fun b acc => b ++ acc) []).map Entry.count).sum + 1 := by
  induction bs generalizing i with
  | nil => simp at h
  | cons b bs ih =>
    cases i with
    | zero =>
      simp only [modifyBucket, List.foldr_cons, List.map_append, List.sum_append,
        Bucket.sum_count_bump]
      omega
    | succ i =>
      simp only [modifyBucket, List.foldr_cons, List.map_append, List.sum_append]
      rw [ih i (by simpa using h)]
      omega

/-! ## The walk of `mostFrequentWord` -/

theorem Entry.better_iff (a b : Entry) :
    a.better b = true ↔
      b.count < a.count ∨ (a.count = b.count ∧ a.firstSeen < b.firstSeen) := by
  simp [Entry.better]

theorem Entry.better_eq_false_iff (a b : Entry) :
    a.better b = false ↔
      ¬ (b.count < a.count ∨ (a.count = b.count ∧ a.firstSeen < b.firstSeen)) := by
  rw [← Entry.better_iff]
  simp

theorem foldl_pickBest_some (es : List Entry) (a : Entry) :
    ∃ m, es.foldl pickBest (some a) = some m ∧ (m = a ∨ m ∈ es) ∧ a.better m = false ∧
      ∀ e ∈ es, e.better m = false := by
  induction es generalizing a with
  | nil =>
    refine ⟨a, rfl, Or.inl rfl, ?_, ?_⟩
    · rw [Entry.better_eq_false_iff]; omega
    · intro e he; cases he
  | cons x es ih =>
    by_cases hx : x.better a = true
    · obtain ⟨m, h1, h2, h3, h4⟩ := ih x
      refine ⟨m, ?_, ?_, ?_, ?_⟩
      · simp only [List.foldl_cons, pickBest, hx, if_true]; exact h1
      · rcases h2 with h2 | h2
        · right; rw [h2]; exact List.mem_cons_self _ _
        · right; exact List.mem_cons_of_mem _ h2
      · rw [Entry.better_iff] at hx
        rw [Entry.better_eq_false_iff] at h3 ⊢
        omega
      · intro e he
        rcases List.mem_cons.1 he with he | he
        · rw [he]; exact h3
        · exact h4 e he
    · obtain ⟨m, h1, h2, h3, h4⟩ := ih a
      refine ⟨m, ?_, ?_, h3, ?_⟩
      · simp only [List.foldl_cons, pickBest, hx]; exact h1
      · rcases h2 with h2 | h2
        · left; exact h2
        · right; exact List.mem_cons_of_mem _ h2
      · intro e he
        rcases List.mem_cons.1 he with he | he
        · rw [he]
          have hx2 : x.better a = false := by simpa using hx
          rw [Entry.better_eq_false_iff] at hx2 h3 ⊢
          omega
        · exact h4 e he

theorem WordFrequency.bestEntry_spec {hasher : String → Nat} (t : WordFrequency hasher)
    (h : t.entries ≠ []) :
    ∃ m, t.bestEntry = some m ∧ m ∈ t.entries ∧ ∀ e ∈ t.entries, e.better m = false := by
  unfold WordFrequency.bestEntry
  cases hes : t.entries with
  | nil => exact absurd hes h
  | cons x es =>
    obtain ⟨m, h1, h2, h3, h4⟩ := foldl_pickBest_some es x
    refine ⟨m, ?_, ?_, ?_⟩
    · simpa [pickBest] using h1
    · rcases h2 with h2 | h2
      · rw [h2]; exact List.mem_cons_self _ _
      · exact List.mem_cons_of_mem _ h2
    · intro e he
      rcases List.mem_cons.1 he with he | he
      · rw [he]; exact h3
      · exact h4 e he

/-! ## The table: what a lookup finds after the tokens have been streamed in -/

namespace WordFrequency

variable {hasher : String → Nat}

theorem bucketCount_insert (t : WordFrequency hasher) (key : String) (pos : Nat) :
    (t.insert key pos).bucketCount = t.bucketCount := by
  simp [insert, bucketCount, length_modifyBucket]

theorem bucketIndex_insert (t : WordFrequency hasher) (key : String) (pos : Nat) (w : String) :
    (t.insert key pos).bucketIndex w = t.bucketIndex w := by
  simp [bucketIndex, bucketCount_insert]

theorem bucketCount_insertAll (t : WordFrequency hasher) (toks : List String) (pos : Nat) :
    (t.insertAll toks pos).bucketCount = t.bucketCount := by
  induction toks generalizing t pos with
  | nil => rfl
  | cons k rest ih => simp [insertAll, ih, bucketCount_insert]

theorem bucketIndex_lt (t : WordFrequency hasher) (h : 0 < t.bucketCount) (w : String) :
    t.bucketIndex w < t.buckets.length :=
  Nat.mod_lt _ h

theorem find_insert (t : WordFrequency hasher) (h : 0 < t.bucketCount) (key : String)
    (pos : Nat) (w : String) :
    (t.insert key pos).find w =
      if w = key then
        some (match t.find key with
          | some e => { e with count := e.count + 1 }
          | none => ⟨key, 1, pos⟩)
      else t.find w := by
  unfold find
  rw [bucketIndex_insert]
  simp only [insert, bucketAt_modifyBucket]
  by_cases hw : w = key
  · subst hw
    simp [bucketIndex_lt t h, Bucket.lookup_bump]
  · by_cases hi : t.bucketIndex key = t.bucketIndex w
    · simp [hi, bucketIndex_lt t h, Bucket.lookup_bump, hw]
    · simp [hi, hw]

theorem find_empty (n : Nat) (w : String) : (empty hasher n).find w = none := by
  simp [find, empty, bucketAt_replicate, Bucket.lookup]

theorem mem_entries {t : WordFrequency hasher} {e : Entry} :
    e ∈ t.entries ↔ ∃ i, e ∈ bucketAt t.buckets i :=
  mem_foldr_append

theorem numberOfWords_insert (t : WordFrequency hasher) (h : 0 < t.bucketCount) (key : String)
    (pos : Nat) : (t.insert key pos).numberOfWords = t.numberOfWords + 1 :=
  sum_count_modifyBucket t.buckets key pos _ (bucketIndex_lt t h key)

theorem numberOfWords_insertAll (t : WordFrequency hasher) (h : 0 < t.bucketCount)
    (toks : List String) (pos : Nat) :
    (t.insertAll toks pos).numberOfWords = t.numberOfWords + toks.length := by
  induction toks generalizing t pos with
  | nil => rfl
  | cons k rest ih =>
    simp only [insertAll, List.length_cons]
    rw [ih _ (by rw [bucketCount_insert]; exact h), numberOfWords_insert t h]
    omega

theorem numberOfWords_empty (n : Nat) : (empty hasher n).numberOfWords = 0 := by
  have h : ∀ m : Nat, (List.replicate m ([] : Bucket)).foldr (fun b acc => b ++ acc) [] = [] := by
    intro m
    induction m with
    | zero => rfl
    | succ m ih => simp [List.replicate, ih]
  simp [numberOfWords, entries, empty, h]

theorem entries_empty (n : Nat) : (empty hasher n).entries = [] := by
  have h : ∀ m : Nat, (List.replicate m ([] : Bucket)).foldr (fun b acc => b ++ acc) [] = [] := by
    intro m
    induction m with
    | zero => rfl
    | succ m ih => simp [List.replicate, ih]
  simp [entries, empty, h]

theorem insertAll_zero_buckets (toks : List String) (pos : Nat) :
    ((empty hasher 0).insertAll toks pos) = empty hasher 0 := by
  induction toks generalizing pos with
  | nil => rfl
  | cons k rest ih =>
    have h : (empty hasher 0).insert k pos = empty hasher 0 := by
      simp [insert, empty, modifyBucket]
    simp only [insertAll, h, ih]

theorem holds_empty (n : Nat) : Holds (empty hasher n) [] := by
  refine ⟨fun w => by simp [find_empty], ?_, ?_⟩
  · intro i e he
    simp [empty, bucketAt_replicate] at he
  · intro i
    simp [empty, bucketAt_replicate]

theorem holds_insert {t : WordFrequency hasher} {done : List String} (h : 0 < t.bucketCount)
    (ht : Holds t done) (key : String) :
    Holds (t.insert key done.length) (done ++ [key]) := by
  refine ⟨?_, ?_, ?_⟩
  · intro w
    rw [find_insert t h, ht.find_eq key]
    by_cases hw : w = key
    · subst hw
      by_cases hm : w ∈ done
      · simp [hm, List.count_append, List.indexOf_append_of_mem hm]
      · simp [hm, List.count_append, List.indexOf_append_of_not_mem hm,
          List.count_eq_zero_of_not_mem hm]
    · rw [if_neg hw, ht.find_eq w]
      by_cases hm : w ∈ done
      · have hc : List.count w [key] = 0 :=
          List.count_eq_zero_of_not_mem (by simpa using hw)
        simp [hm, List.count_append, List.indexOf_append_of_mem hm, hc]
      · simp [hm, hw]
  · intro i e he
    rw [bucketIndex_insert]
    simp only [insert, bucketAt_modifyBucket] at he
    split at he
    · rename_i hc
      rcases Bucket.mem_bump he with h1 | h1
      · exact ht.placed i e h1
      · rw [h1]; exact hc.1
    · exact ht.placed i e he
  · intro i
    simp only [insert, bucketAt_modifyBucket]
    split
    · exact Bucket.nodup_bump _ _ (ht.nodup i)
    · exact ht.nodup i

theorem holds_insertAll {t : WordFrequency hasher} {done : List String} (h : 0 < t.bucketCount)
    (ht : Holds t done) (toks : List String) :
    Holds (t.insertAll toks done.length) (done ++ toks) := by
  induction toks generalizing t done with
  | nil => simpa [insertAll] using ht
  | cons k rest ih =>
    have h1 := holds_insert h ht k
    have h2 := ih (t := t.insert k done.length) (by rw [bucketCount_insert]; exact h) h1
    simpa [insertAll] using h2

theorem holds_ofTokens {n : Nat} (h : 0 < n) (toks : List String) :
    Holds ((empty hasher n).insertAll toks 0) toks := by
  have h0 : 0 < (empty hasher n).bucketCount := by simpa [empty, bucketCount] using h
  simpa using holds_insertAll h0 (holds_empty n) toks

theorem Holds.wordCount_eq {t : WordFrequency hasher} {done : List String} (ht : Holds t done)
    (w : String) : t.wordCount w = done.count w := by
  unfold wordCount
  rw [ht.find_eq w]
  by_cases hm : w ∈ done
  · simp [hm]
  · simp [hm, List.count_eq_zero_of_not_mem hm]

theorem Holds.mem_entries_iff {t : WordFrequency hasher} {done : List String} (ht : Holds t done)
    (e : Entry) :
    e ∈ t.entries ↔ e.token ∈ done ∧ e = ⟨e.token, done.count e.token, done.indexOf e.token⟩ := by
  constructor
  · intro he
    obtain ⟨i, hi⟩ := mem_entries.1 he
    have h1 : t.find e.token = some e := by
      unfold find
      rw [ht.placed i e hi]
      exact Bucket.lookup_self (ht.nodup i) hi
    rw [ht.find_eq] at h1
    by_cases hm : e.token ∈ done
    · rw [if_pos hm] at h1
      exact ⟨hm, (Option.some.inj h1).symm⟩
    · rw [if_neg hm] at h1
      cases h1
  · rintro ⟨hm, he⟩
    have h1 := ht.find_eq e.token
    rw [if_pos hm, ← he] at h1
    exact mem_entries.2 ⟨_, (Bucket.lookup_mem h1).1⟩

theorem Holds.mostFrequentWord_spec {t : WordFrequency hasher} {done : List String}
    (ht : Holds t done) (hne : done ≠ []) : FirstMostFrequent done t.mostFrequentWord := by
  obtain ⟨k, rest, hk⟩ := List.exists_cons_of_ne_nil hne
  have hkm : k ∈ done := by rw [hk]; exact List.mem_cons_self _ _
  have hne2 : t.entries ≠ [] := by
    intro h0
    have := (ht.mem_entries_iff ⟨k, done.count k, done.indexOf k⟩).2 ⟨hkm, rfl⟩
    rw [h0] at this
    cases this
  obtain ⟨m, hm, hmem, hbest⟩ := bestEntry_spec t hne2
  have hw : t.mostFrequentWord = m.token := by simp [mostFrequentWord, hm]
  rw [hw]
  obtain ⟨hm1, hm2⟩ := (ht.mem_entries_iff m).1 hmem
  refine ⟨hm1, ?_⟩
  intro u hu
  have hu2 := (ht.mem_entries_iff ⟨u, done.count u, done.indexOf u⟩).2 ⟨hu, rfl⟩
  have hb := (Entry.better_eq_false_iff _ _).1 (hbest _ hu2)
  have hc : m.count = done.count m.token := by rw [hm2]
  have hf : m.firstSeen = done.indexOf m.token := by rw [hm2]
  simp only at hb
  rw [hc, hf] at hb
  constructor
  · omega
  · intro h; omega

end WordFrequency

theorem FirstMostFrequent.unique {toks : List String} {a b : String}
    (ha : FirstMostFrequent toks a) (hb : FirstMostFrequent toks b) : a = b := by
  obtain ⟨ha1, ha2⟩ := ha
  obtain ⟨hb1, hb2⟩ := hb
  have h1 := ha2 b hb1
  have h2 := hb2 a ha1
  have hc : toks.count a = toks.count b := Nat.le_antisymm h2.1 h1.1
  have hi : toks.indexOf a = toks.indexOf b :=
    Nat.le_antisymm (h1.2 hc.symm) (h2.2 hc)
  exact (List.indexOf_inj ha1 hb1).1 hi

/-! ## Tables built from a stream -/

namespace WordFrequency

variable {hasher : String → Nat}

theorem ofStream_eq (hasher : String → Nat) (n : Nat) (input : Option String) :
    ofStream hasher n input = (empty hasher n).insertAll (streamTokens input) 0 := by
  cases input <;> rfl

theorem holds_ofStream (hasher : String → Nat) {n : Nat} (h : 0 < n) (input : Option String) :
    Holds (ofStream hasher n input) (streamTokens input) := by
  rw [ofStream_eq]
  exact holds_ofTokens h _

theorem ofStream_zero (input : Option String) : ofStream hasher 0 input = empty hasher 0 := by
  rw [ofStream_eq, insertAll_zero_buckets]

theorem numberOfWords_ofStream {n : Nat} (h : 0 < n) (input : Option String) :
    (ofStream hasher n input).numberOfWords = (streamTokens input).length := by
  rw [ofStream_eq, numberOfWords_insertAll _ (by simpa [empty, bucketCount] using h),
    numberOfWords_empty]
  omega

theorem bestEntry_of_entries_nil {t : WordFrequency hasher} (h : t.entries = []) :
    t.mostFrequentWord = "" := by
  simp [mostFrequentWord, bestEntry, h]

theorem bucketAt_of_entries_nil {t : WordFrequency hasher} (h : t.entries = []) (i : Nat) :
    bucketAt t.buckets i = [] := by
  cases hb : bucketAt t.buckets i with
  | nil => rfl
  | cons e rest =>
    have : e ∈ t.entries := mem_entries.2 ⟨i, by rw [hb]; exact List.mem_cons_self _ _⟩
    rw [h] at this
    cases this

theorem wordCount_of_entries_nil {t : WordFrequency hasher} (h : t.entries = []) (w : String) :
    t.wordCount w = 0 := by
  simp [wordCount, find, bucketAt_of_entries_nil h, Bucket.lookup]

theorem Holds.entries_eq_nil {t : WordFrequency hasher} (ht : Holds t []) : t.entries = [] := by
  cases he : t.entries with
  | nil => rfl
  | cons e rest =>
    have := (ht.mem_entries_iff e).1 (by rw [he]; exact List.mem_cons_self _ _)
    simp at this

theorem Holds.mostFrequentWord_eq {ha hb : String → Nat} {a : WordFrequency ha}
    {b : WordFrequency hb} {done : List String} (h1 : Holds a done) (h2 : Holds b done) :
    a.mostFrequentWord = b.mostFrequentWord := by
  by_cases hd : done = []
  · subst hd
    rw [bestEntry_of_entries_nil h1.entries_eq_nil, bestEntry_of_entries_nil h2.entries_eq_nil]
  · exact FirstMostFrequent.unique (h1.mostFrequentWord_spec hd) (h2.mostFrequentWord_spec hd)

theorem nodup_tokens_foldr (slot : String → Nat) (bs : List Bucket) (off : Nat)
    (hp : ∀ i, ∀ e ∈ bucketAt bs i, slot e.token = i + off)
    (hn : ∀ i, ((bucketAt bs i).map Entry.token).Nodup) :
    ((bs.foldr (fun b acc => b ++ acc) []).map Entry.token).Nodup := by
  induction bs generalizing off with
  | nil => simp
  | cons b bs ih =>
    simp only [List.foldr_cons, List.map_append]
    rw [List.nodup_append]
    refine ⟨hn 0, ih (off + 1) ?_ ?_, ?_⟩
    · intro i e he
      have := hp (i + 1) e he
      omega
    · intro i
      exact hn (i + 1)
    · intro k hk1 hk2
      obtain ⟨e1, he1, hk1⟩ := List.mem_map.1 hk1
      obtain ⟨e2, he2, hk2⟩ := List.mem_map.1 hk2
      obtain ⟨i, hi⟩ := mem_foldr_append.1 he2
      have p1 := hp 0 e1 he1
      have p2 := hp (i + 1) e2 hi
      rw [hk1] at p1
      rw [hk2] at p2
      omega

theorem Holds.keys_nodup {t : WordFrequency hasher} {done : List String} (ht : Holds t done) :
    t.keys.Nodup :=
  nodup_tokens_foldr t.bucketIndex t.buckets 0 (fun i e he => by simpa using ht.placed i e he)
    ht.nodup

theorem Holds.mem_keys_iff {t : WordFrequency hasher} {done : List String} (ht : Holds t done)
    (w : String) : w ∈ t.keys ↔ w ∈ done := by
  constructor
  · intro h
    obtain ⟨e, he, hw⟩ := List.mem_map.1 h
    rw [← hw]
    exact ((ht.mem_entries_iff e).1 he).1
  · intro h
    exact List.mem_map.2 ⟨⟨w, done.count w, done.indexOf w⟩,
      (ht.mem_entries_iff _).2 ⟨h, rfl⟩, rfl⟩

theorem Holds.numberOfWords_eq_sum {t : WordFrequency hasher} {done : List String}
    (ht : Holds t done) : t.numberOfWords = (t.keys.map t.wordCount).sum := by
  unfold numberOfWords keys
  rw [List.map_map]
  congr 1
  apply List.map_congr_left
  intro e he
  have h1 := ((ht.mem_entries_iff e).1 he).2
  have h2 : e.count = done.count e.token := by rw [h1]
  simp only [Function.comp_apply]
  rw [ht.wordCount_eq, h2]

end WordFrequency

theorem sum_map_indicator (a : String) (ws : List String) :
    (ws.map (fun w => if a = w then 1 else 0)).sum = ws.count a := by
  induction ws with
  | nil => rfl
  | cons x ws ih =>
    by_cases h : a = x
    · subst h; simp [ih]; omega
    · have h2 : ¬ x = a := fun h3 => h h3.symm
      simp [ih, h, h2, List.count_cons]

theorem sum_map_count_le (toks ws : List String) (h : ws.Nodup) :
    (ws.map (fun w => toks.count w)).sum ≤ toks.length := by
  induction toks with
  | nil => simp
  | cons a toks ih =>
    have h1 : (ws.map (fun w => (a :: toks).count w)).sum =
        (ws.map (fun w => toks.count w)).sum + (ws.map (fun w => if a = w then 1 else 0)).sum := by
      rw [← List.sum_map_add]
      congr 1
      apply List.map_congr_left
      intro w _
      rw [List.count_cons]
      simp
    rw [h1, sum_map_indicator]
    have h2 : ws.count a ≤ 1 := List.nodup_iff_count_le_one.1 h a
    simp only [List.length_cons]
    omega

/-! ## The queries of the table -/

namespace WordFrequency

variable {hasher : String → Nat}

theorem exists_holds (hasher : String → Nat) (n : Nat) (input : Option String) :
    ∃ done, Holds (ofStream hasher n input) done ∧
      (ofStream hasher n input).numberOfWords = done.length ∧
      ∀ w, w ∈ done → w ∈ streamTokens input := by
  rcases Nat.eq_zero_or_pos n with h | h
  · subst h
    refine ⟨[], ?_, ?_, ?_⟩
    · rw [ofStream_zero]; exact holds_empty 0
    · rw [ofStream_zero, numberOfWords_empty]; rfl
    · intro w hw; cases hw
  · exact ⟨streamTokens input, holds_ofStream hasher h input, numberOfWords_ofStream h input,
      fun _ hw => hw⟩

end WordFrequency

/-- With hashers that yield a value on every key, two tables built from the
same stream (any two such hashers, any two bucket counts) return the same
`numberOfWords()`, the same `wordCount(w)` for every `w` and the same
`mostFrequentWord()`. -/
theorem hashers_same_answers (hasher1 hasher2 : String → Nat) (n m : Nat)
    (hn : 0 < n) (hm : 0 < m) (input : Option String) :
    (WordFrequency.ofStream hasher2 m input).numberOfWords =
        (WordFrequency.ofStream hasher1 n input).numberOfWords ∧
    (∀ w, (WordFrequency.ofStream hasher2 m input).wordCount w =
        (WordFrequency.ofStream hasher1 n input).wordCount w) ∧
    (WordFrequency.ofStream hasher2 m input).mostFrequentWord =
        (WordFrequency.ofStream hasher1 n input).mostFrequentWord := by
  have ha := WordFrequency.holds_ofStream hasher1 hn input
  have hb := WordFrequency.holds_ofStream hasher2 hm input
  refine ⟨?_, ?_, WordFrequency.Holds.mostFrequentWord_eq hb ha⟩
  · rw [WordFrequency.numberOfWords_ofStream hm, WordFrequency.numberOfWords_ofStream hn]
  · intro w
    rw [hb.wordCount_eq, ha.wordCount_eq]

theorem WordFrequency.insertAllWith_total (h : String → Nat)
    (t : WordFrequency (HashFunction.values (fun key => some (h key)))) (toks : List String)
    (pos : Nat) :
    WordFrequency.insertAllWith (fun key => some (h key)) t toks pos =
      some (t.insertAll toks pos) := by
  induction toks generalizing t pos with
  | nil => rfl
  | cons k rest ih =>
    simp only [WordFrequency.insertAllWith, WordFrequency.insertWith, WordFrequency.insertAll]
    exact ih _ _

/-- Under a hasher that yields a value on every key the construction and
`wordCount` always have a result, the one of the table of that hash
function. -/
theorem WordFrequency.ofStreamWith_total (h : String → Nat) (n : Nat) (input : Option String)
    (w : String) :
    WordFrequency.ofStreamWith (fun key => some (h key)) n input =
        some (WordFrequency.ofStream (HashFunction.values (fun key => some (h key))) n input) ∧
    (∀ t : WordFrequency (HashFunction.values (fun key => some (h key))),
      t.wordCountWith (fun key => some (h key)) w = some (t.wordCount w)) ∧
    HashFunction.values (fun key => some (h key)) = h := by
  refine ⟨?_, fun _ => rfl, rfl⟩
  cases input with
  | none => rfl
  | some text =>
    simp only [WordFrequency.ofStreamWith, WordFrequency.ofStream]
    exact WordFrequency.insertAllWith_total h _ _ _

/-- C1, on the code: the call operator of `MyCustomHasher` yields no value, so
no token can be inserted into a `WordFrequency<MyCustomHasher>` and no
`wordCount` has a result.  With a Frankenstein file that reads "the the", the
table of test set 1 (key length as default hasher, 4 buckets) answers
`numberOfWords()` 2, `wordCount("the")` 2 and `mostFrequentWord()` "the",
while the table of test set 2 does not exist and none of its seven checks has
an outcome. -/
theorem custom_hasher_table_has_no_answers :
    (∀ (t : WordFrequency (HashFunction.values MyCustomHasher.call)) (token : String)
        (rest : List String) (pos : Nat),
      WordFrequency.insertAllWith MyCustomHasher.call t (token :: rest) pos = none) ∧
    (∀ (t : WordFrequency (HashFunction.values MyCustomHasher.call)) (w : String),
      t.wordCountWith MyCustomHasher.call w = none) ∧
    (WordFrequency.ofStreamWith MyCustomHasher.call 4 (some "the the")).isSome = false ∧
    (WordFrequency.ofStream String.length 4 (some "the the")).numberOfWords = 2 ∧
    (WordFrequency.ofStream String.length 4 (some "the the")).wordCount "the" = 2 ∧
    (WordFrequency.ofStream String.length 4 (some "the the")).mostFrequentWord = "the" ∧
    testSet1 String.length 4 (fun _ => some "the the") =
      [true, false, false, false, false, false, true, true] ∧
    testSet2 4 (fun _ => some "the the") =
      [some true, none, none, none, none, none, none, none] := by
  refine ⟨fun _ _ _ _ => rfl, fun _ _ => rfl, by decide, by decide, by decide, by decide,
    by decide, by decide⟩

/-- C2: in every table the keys are distinct and `numberOfWords()` is the sum
of `wordCount(t)` over the keys `t`; for every list of distinct words the sum
of their `wordCount` is at most `numberOfWords()`. -/
theorem numberOfWords_eq_sum_wordCount (hasher : String → Nat) (n : Nat)
    (input : Option String) :
    (WordFrequency.ofStream hasher n input).keys.Nodup ∧
    (WordFrequency.ofStream hasher n input).numberOfWords =
      ((WordFrequency.ofStream hasher n input).keys.map
        (WordFrequency.ofStream hasher n input).wordCount).sum ∧
    ∀ ws : List String, ws.Nodup →
      (ws.map (WordFrequency.ofStream hasher n input).wordCount).sum ≤
        (WordFrequency.ofStream hasher n input).numberOfWords := by
  obtain ⟨done, hd, hlen, _⟩ := WordFrequency.exists_holds hasher n input
  refine ⟨hd.keys_nodup, hd.numberOfWords_eq_sum, ?_⟩
  intro ws hws
  rw [hlen]
  have : (ws.map (WordFrequency.ofStream hasher n input).wordCount) =
      ws.map (fun w => done.count w) :=
    List.map_congr_left (fun w _ => hd.wordCount_eq w)
  rw [this]
  exact sum_map_count_le done ws hws

/-- C2, for the text "the cat the" and the distinct words "the", "cat" and
"dog". -/
theorem numberOfWords_eq_sum_wordCount_witness :
    ["the", "cat", "dog"].Nodup ∧
    ((["the", "cat", "dog"].map
        (WordFrequency.ofStream String.length 4 (some "the cat the")).wordCount).sum ≤
      (WordFrequency.ofStream String.length 4 (some "the cat the")).numberOfWords) :=
  ⟨by decide,
    (numberOfWords_eq_sum_wordCount String.length 4 (some "the cat the")).2.2
      ["the", "cat", "dog"] (by decide)⟩

/-- C3: in a non-empty table `mostFrequentWord()` is a key of the table whose
`wordCount` is at least the `wordCount` of every word; in an empty table, as
in the table of a stream that is not open, it is the empty string. -/
theorem mostFrequentWord_is_max (hasher : String → Nat) (n : Nat) (input : Option String) :
    ((WordFrequency.ofStream hasher n input).entries ≠ [] →
      (WordFrequency.ofStream hasher n input).mostFrequentWord ∈
          (WordFrequency.ofStream hasher n input).keys ∧
        ∀ w, (WordFrequency.ofStream hasher n input).wordCount w ≤
          (WordFrequency.ofStream hasher n input).wordCount
            (WordFrequency.ofStream hasher n input).mostFrequentWord) ∧
    (∀ t : WordFrequency hasher, t.entries = [] → t.mostFrequentWord = "") ∧
    (WordFrequency.ofStream hasher n none).mostFrequentWord = "" := by
  refine ⟨?_, fun t ht => WordFrequency.bestEntry_of_entries_nil ht, ?_⟩
  · intro hne
    obtain ⟨done, hd, _, _⟩ := WordFrequency.exists_holds hasher n input
    have hdne : done ≠ [] := by
      intro h0
      subst h0
      exact hne hd.entries_eq_nil
    obtain ⟨hm, hmax⟩ := hd.mostFrequentWord_spec hdne
    refine ⟨(hd.mem_keys_iff _).2 hm, ?_⟩
    intro w
    rw [hd.wordCount_eq, hd.wordCount_eq]
    by_cases hw : w ∈ done
    · exact (hmax w hw).1
    · rw [List.count_eq_zero_of_not_mem hw]
      exact Nat.zero_le _
  · exact WordFrequency.bestEntry_of_entries_nil (WordFrequency.entries_empty n)

/-- C3, for the text "b a the the a": the table is not empty and its most
frequent word is counted at least as often as "a". -/
theorem mostFrequentWord_is_max_witness :
    (WordFrequency.ofStream String.length 2 (some "b a the the a")).entries ≠ [] ∧
    (WordFrequency.ofStream String.length 2 (some "b a the the a")).wordCount "a" ≤
      (WordFrequency.ofStream String.length 2 (some "b a the the a")).wordCount
        (WordFrequency.ofStream String.length 2 (some "b a the the a")).mostFrequentWord :=
  ⟨by decide,
    ((mostFrequentWord_is_max String.length 2 (some "b a the the a")).1 (by decide)).2 "a"⟩

/-- C4: `wordCount(w)` is a total function; it is 0 for every `w` that is not
a token of the source text, and 0 for every `w` in an empty table, as in the
table of a stream that is not open. -/
theorem wordCount_absent (hasher : String → Nat) (n : Nat) (text : String) (w : String) :
    (w ∉ tokenize text → (WordFrequency.ofStream hasher n (some text)).wordCount w = 0) ∧
    (∀ t : WordFrequency hasher, t.entries = [] → t.wordCount w = 0) ∧
    (WordFrequency.ofStream hasher n none).wordCount w = 0 := by
  refine ⟨?_, fun t ht => WordFrequency.wordCount_of_entries_nil ht w, ?_⟩
  · intro hw
    obtain ⟨done, hd, _, hsub⟩ := WordFrequency.exists_holds hasher n (some text)
    rw [hd.wordCount_eq]
    exact List.count_eq_zero_of_not_mem (fun h => hw (hsub w h))
  · exact WordFrequency.wordCount_of_entries_nil (WordFrequency.entries_empty n) w

/-- C4, for the query "non-existent-!word" of the driver on the text
"the non-existent word!". -/
theorem wordCount_absent_witness :
    "non-existent-!word" ∉ tokenize "the non-existent word!" ∧
    (WordFrequency.ofStream String.length 4 (some "the non-existent word!")).wordCount
      "non-existent-!word" = 0 :=
  ⟨by decide,
    (wordCount_absent String.length 4 "the non-existent word!" "non-existent-!word").1
      (by decide)⟩

/-! ## Test sets 3 and 4 of the driver -/

/-- C5, on the code: test set 4 checks a table declared without argument, so
its six queries are the same whatever `fin` is; with the Hunger Games file
missing and a default text of one word, `fin` is not open, the table
constructed from `fin` answers the six expected values, and the table test set
4 queries has `numberOfWords()` 1 and does not. -/
theorem testSet4_ignores_fin :
    (∀ (hasher : String → Nat) (n : Nat) (builtin : String) (files1 files2 : FileSystem),
      (testSet4 hasher n builtin files1).2 = (testSet4 hasher n builtin files2).2) ∧
    (testSet4 String.length 4 "the" (fun _ => none)).1 = true ∧
    queries (WordFrequency.ofStream String.length 4
      (ifstream (fun _ => none) "The Hunger Games by Suzanne Collins.txt")) = testSet4Expected ∧
    (testSet4 String.length 4 "the" (fun _ => none)).2.numberOfWords = 1 ∧
    (testSet4 String.length 4 "the" (fun _ => none)).2 ≠ testSet4Expected := by
  refine ⟨fun _ _ _ _ _ => rfl, by decide, ?_, by decide, ?_⟩
  · show Queries.mk _ _ _ _ _ _ = Queries.mk 0 0 0 "" 0 0
    rw [Queries.mk.injEq]
    refine ⟨by decide, by decide, by decide, by decide, ?_, by decide⟩
    have e : (WordFrequency.ofStream String.length 4
        (ifstream (fun _ => none) "The Hunger Games by Suzanne Collins.txt")).entries.length
        = 0 := by decide
    simp [WordFrequency.bucketSizeAverage, e]
  · intro h
    have h2 := congrArg Queries.numberOfWords h
    revert h2
    decide

/-- C6, on the code: test sets 3 and 4 both declare their table without
argument (lines 129 and 162) and expect 3231 words of the one and 0 of the
other, so for no built-in text do the checks of test set 3 pass while the six
queries of test set 4 give what is expected.  With an empty built-in text the
queries of test set 4 are as expected and test set 3 fails; with the built-in
text "the Ichabod the" test set 4 asks `numberOfWords()` of a table that
answers 3. -/
theorem testSets3and4_default_tables :
    (∀ (hasher : String → Nat) (n : Nat) (builtin : String) (files : FileSystem),
      (allPass (testSet3 hasher n builtin) &&
        decide ((testSet4 hasher n builtin files).2 = testSet4Expected)) = false) ∧
    (testSet4 String.length 4 "" (fun _ => none)).2 = testSet4Expected ∧
    allPass (testSet3 String.length 4 "") = false ∧
    (testSet4 String.length 4 "the Ichabod the" (fun _ => none)).2.numberOfWords = 3 ∧
    (testSet4 String.length 4 "the Ichabod the" (fun _ => none)).2.wordCountThe = 2 ∧
    (testSet4 String.length 4 "the Ichabod the" (fun _ => none)).2.mostFrequentWord = "the" := by
  refine ⟨?_, ?_, by decide, by decide, by decide, by decide⟩
  · intro hasher n builtin files
    cases h3 : allPass (testSet3 hasher n builtin) with
    | false => rfl
    | true =>
      cases h4 : decide ((testSet4 hasher n builtin files).2 = testSet4Expected) with
      | false => rfl
      | true =>
        exfalso
        have e := congrArg Queries.numberOfWords (of_decide_eq_true h4)
        simp only [testSet4, queries, testSet4Expected] at e
        simp only [allPass, testSet3, testSet3Checks, is_equal, List.all_cons, List.all_nil,
          Bool.and_true, Bool.and_eq_true, id, decide_eq_true_eq] at h3
        omega
  · show Queries.mk _ _ _ _ _ _ = Queries.mk 0 0 0 "" 0 0
    rw [Queries.mk.injEq]
    refine ⟨by decide, by decide, by decide, by decide, ?_, by decide⟩
    have e : (WordFrequency.ofDefault String.length 4 "").entries.length = 0 := by decide
    simp [WordFrequency.bucketSizeAverage, e]

/-! ## The `maxBucketSize` checks of the driver -/

theorem sizeSub_eq (a b : Nat) (ha : a < 2 ^ 64) (hb : b < 2 ^ 64) :
    sizeSub a b = if b ≤ a then a - b else a + 2 ^ 64 - b := by
  unfold sizeSub
  have h : (2 : Nat) ^ 64 = 18446744073709551616 := by norm_num
  rw [h] at ha hb ⊢
  split <;> omega

/-- C7: for a 64-bit `size`, the `maxBucketSize` check of test set 1 passes
exactly for 5, 6 and 7 and that of test set 3 exactly for 4, 5 and 6; a size
below the subtrahend wraps to a difference above 2 and is rejected. -/
theorem maxBucketSizeCheck_iff (size : Nat) (h : size < 2 ^ 64) :
    (maxBucketSizeCheck1 size = true ↔ size = 5 ∨ size = 6 ∨ size = 7) ∧
    (maxBucketSizeCheck3 size = true ↔ size = 4 ∨ size = 5 ∨ size = 6) ∧
    (size < 5 → 2 < sizeSub size 5 ∧ maxBucketSizeCheck1 size = false) ∧
    (size < 4 → 2 < sizeSub size 4 ∧ maxBucketSizeCheck3 size = false) := by
  have h5 := sizeSub_eq size 5 h (by norm_num)
  have h4 := sizeSub_eq size 4 h (by norm_num)
  have hp : (2 : Nat) ^ 64 = 18446744073709551616 := by norm_num
  rw [hp] at h h5 h4
  have k5 : sizeSub size 5 ≤ 2 ↔ 5 ≤ size ∧ size ≤ 7 := by
    rw [h5]; split <;> omega
  have k4 : sizeSub size 4 ≤ 2 ↔ 4 ≤ size ∧ size ≤ 6 := by
    rw [h4]; split <;> omega
  have c1 : maxBucketSizeCheck1 size = true ↔ size = 5 ∨ size = 6 ∨ size = 7 := by
    simp only [maxBucketSizeCheck1, is_equal, decide_eq_true_eq]
    by_cases hc : sizeSub size 5 ≤ 2
    · rw [if_pos hc]
      have := k5.1 hc
      constructor
      · intro _; omega
      · intro _; rfl
    · rw [if_neg hc]
      have : ¬ (5 ≤ size ∧ size ≤ 7) := fun hh => hc (k5.2 hh)
      constructor
      · intro hh; omega
      · intro hh; omega
  have c3 : maxBucketSizeCheck3 size = true ↔ size = 4 ∨ size = 5 ∨ size = 6 := by
    simp only [maxBucketSizeCheck3, is_equal, decide_eq_true_eq]
    by_cases hc : sizeSub size 4 ≤ 2
    · rw [if_pos hc]
      have := k4.1 hc
      constructor
      · intro _; omega
      · intro _; rfl
    · rw [if_neg hc]
      have : ¬ (4 ≤ size ∧ size ≤ 6) := fun hh => hc (k4.2 hh)
      constructor
      · intro hh; omega
      · intro hh; omega
  refine ⟨c1, c3, ?_, ?_⟩
  · intro hc
    constructor
    · by_contra hh
      have := k5.1 (by omega)
      omega
    · cases hb : maxBucketSizeCheck1 size with
      | false => rfl
      | true => have := c1.1 hb; omega
  · intro hc
    constructor
    · by_contra hh
      have := k4.1 (by omega)
      omega
    · cases hb : maxBucketSizeCheck3 size with
      | false => rfl
      | true => have := c3.1 hb; omega

/-- C7, at the size 3 (below both subtrahends): the difference wraps and both
checks reject it. -/
theorem maxBucketSizeCheck_iff_witness :
    (3 : Nat) < 2 ^ 64 ∧ 2 < sizeSub 3 5 ∧ maxBucketSizeCheck1 3 = false ∧
      2 < sizeSub 3 4 ∧ maxBucketSizeCheck3 3 = false :=
  have h := maxBucketSizeCheck_iff 3 (by norm_num)
  ⟨by norm_num, (h.2.2.1 (by norm_num)).1, (h.2.2.1 (by norm_num)).2,
    (h.2.2.2 (by norm_num)).1, (h.2.2.2 (by norm_num)).2⟩

/-- C8, refuted: the sizes 4 and 8 are within 2 of the 6 expected by test set
1, and 3 and 7 within 2 of the 5 expected by test set 3, and the checks reject
all four. -/
theorem maxBucketSizeCheck_rejects_distance_two :
    maxBucketSizeCheck1 4 = false ∧ maxBucketSizeCheck1 8 = false ∧
      maxBucketSizeCheck3 3 = false ∧ maxBucketSizeCheck3 7 = false := by
  decide

/-- C8, amended: the `maxBucketSize` checks tolerate a range of one around the
expected value: every size from 5 to 7 passes in test set 1 (expected 6) and
every size from 4 to 6 passes in test set 3 (expected 5). -/
theorem maxBucketSizeCheck_tolerates_one (size : Nat) :
    (5 ≤ size ∧ size ≤ 7 → maxBucketSizeCheck1 size = true) ∧
    (4 ≤ size ∧ size ≤ 6 → maxBucketSizeCheck3 size = true) := by
  constructor
  · rintro ⟨h1, h2⟩
    have h : size = 5 ∨ size = 6 ∨ size = 7 := by omega
    rcases h with h | h | h <;> subst h <;> decide
  · rintro ⟨h1, h2⟩
    have h : size = 4 ∨ size = 5 ∨ size = 6 := by omega
    rcases h with h | h | h <;> subst h <;> decide

/-- C8, amended, at the two ends of the ranges: 7 passes in test set 1 and 4
passes in test set 3. -/
theorem maxBucketSizeCheck_tolerates_one_witness :
    maxBucketSizeCheck1 7 = true ∧ maxBucketSizeCheck3 4 = true :=
  ⟨(maxBucketSizeCheck_tolerates_one 7).1 ⟨by decide, by decide⟩,
    (maxBucketSizeCheck_tolerates_one 4).2 ⟨by decide, by decide⟩⟩

/-! ## `ChangeEpsilon_RAII` -/

theorem assertions_EPSILON (call : Nat → CheckResults → CheckResults)
    (hcall : ∀ i c, (call i c).EPSILON = c.EPSILON) (first count : Nat) (affirm : CheckResults) :
    (assertions call first count affirm).EPSILON = affirm.EPSILON := by
  induction count generalizing first affirm with
  | zero => rfl
  | succ n ih => simp only [assertions]; rw [ih, hcall]

theorem widenedBlock_EPSILON (call : Nat → CheckResults → CheckResults) (newEpsilon : Float)
    (i : Nat) (affirm : CheckResults) :
    (widenedBlock call newEpsilon i affirm).EPSILON = affirm.EPSILON :=
  rfl

/-- C9: `ChangeEpsilon_RAII` widens the tolerance for the life of the object
only.  After the constructor `EPSILON` is `newEpsilon` and stays so over the
assertions made meanwhile, `policy` and the tally are untouched; after the
destructor `EPSILON` is the value from before the construction, whatever was
done to the checker in between, and the destructor touches nothing else; so
the `bucketSizeAverage` comparison of test set 4 starts with the `EPSILON` the
checker was constructed with.  The assertions of the reporter are taken not
to write `EPSILON`. -/
theorem changeEpsilon_restores (call : Nat → CheckResults → CheckResults)
    (hcall : ∀ i c, (call i c).EPSILON = c.EPSILON) (checker : CheckResults)
    (newEpsilon : Float) :
    (ChangeEpsilon_RAII.construct checker newEpsilon).2.EPSILON = newEpsilon ∧
    (ChangeEpsilon_RAII.construct checker newEpsilon).2.policy = checker.policy ∧
    (ChangeEpsilon_RAII.construct checker newEpsilon).2.tally = checker.tally ∧
    (∀ first count, (assertions call first count
        (ChangeEpsilon_RAII.construct checker newEpsilon).2).EPSILON = newEpsilon) ∧
    (∀ later : CheckResults,
      ((ChangeEpsilon_RAII.construct checker newEpsilon).1.destroy later).EPSILON =
          checker.EPSILON ∧
        ((ChangeEpsilon_RAII.construct checker newEpsilon).1.destroy later).policy =
          later.policy ∧
        ((ChangeEpsilon_RAII.construct checker newEpsilon).1.destroy later).tally =
          later.tally) ∧
    (checkerAtTestSet4Average call checker).EPSILON = checker.EPSILON := by
  refine ⟨rfl, rfl, rfl, ?_, fun later => ⟨rfl, rfl, rfl⟩, ?_⟩
  · intro first count
    rw [assertions_EPSILON call hcall]
    rfl
  · simp only [checkerAtTestSet4Average, testSet1Checker, testSet2Checker, testSet3Checker]
    rw [assertions_EPSILON call hcall, hcall, widenedBlock_EPSILON,
      assertions_EPSILON call hcall, assertions_EPSILON call hcall, hcall,
      widenedBlock_EPSILON, assertions_EPSILON call hcall]

/-- C9, for a reporter whose assertions append their outcome to the tally, a
checker constructed with the tolerance 0.001 and the widening to 0.075 of
test set 1. -/
theorem changeEpsilon_restores_witness :
    (checkerAtTestSet4Average (fun _ c => { c with tally := c.tally ++ [true] })
        ⟨0.001, ReportingPolicy.OTHER, []⟩).EPSILON = 0.001 ∧
      ((ChangeEpsilon_RAII.construct ⟨0.001, ReportingPolicy.OTHER, []⟩ 0.075).1.destroy
        ⟨0.075, ReportingPolicy.ALL, [true]⟩).EPSILON = 0.001 :=
  have h := changeEpsilon_restores (fun _ c => { c with tally := c.tally ++ [true] })
    (fun _ _ => rfl) ⟨0.001, ReportingPolicy.OTHER, []⟩ 0.075
  ⟨h.2.2.2.2.2, (h.2.2.2.2.1 ⟨0.075, ReportingPolicy.ALL, [true]⟩).1⟩

/-! ## `MyCustomHasher` -/

/-- C10, on the code: the call operator of `MyCustomHasher` returns no value,
for the key "the" as for every other key: its body is empty. -/
theorem myCustomHasher_returns_nothing :
    MyCustomHasher.call "the" = none ∧ ∀ key, MyCustomHasher.call key = none :=
  ⟨rfl, fun _ => rfl⟩

end WordFreq
